import Mathlib

/-!
Verification development for the auction-tracker pipeline
(`src/main.py`, `src/sheet_automation.py`).

The Python helpers are embedded as executable Lean functions over
`String`/`List Char`.  ASCII semantics are used for the character-level
operations (`str.lower`, `str.strip`, `str.isalpha`, the regex classes
`\s`, `[a-z0-9 ]`, `[0-9.]`), which matches the ASCII subject lines,
addresses and money strings the pipeline processes.  Dates are
represented by a day count (`toRD`, a standard civil-calendar day
number), so `datetime.date` equality and `timedelta` arithmetic become
integer equality and subtraction.
-/

namespace AuctionTracker

/-- ASCII whitespace, the characters matched by the regex class `\s`
and stripped by `str.strip` for ASCII input:
space, tab, newline, carriage return, vertical tab, form feed. -/
def pyIsSpace (c : Char) : Bool :=
  c.toNat = 32 || c.toNat = 9 || c.toNat = 10 || c.toNat = 13 ||
  c.toNat = 11 || c.toNat = 12

/-- Case-folding key of a character: the code point, with ASCII
uppercase letters mapped to their lowercase counterparts.  Two ASCII
characters are equal up to case iff their keys are equal, so
comparisons of `lowerCode` model Python's `.lower()`/`.upper()`
comparisons and `re.IGNORECASE` matching. -/
def lowerCode (c : Char) : Nat :=
  if 65 ≤ c.toNat ∧ c.toNat ≤ 90 then c.toNat + 32 else c.toNat

/-- ASCII `str.lower` on one character. -/
def pyToLowerChar (c : Char) : Char :=
  if 65 ≤ c.toNat ∧ c.toNat ≤ 90 then Char.ofNat (c.toNat + 32) else c

def isAsciiDigit (c : Char) : Bool := 48 ≤ c.toNat && c.toNat ≤ 57

/-- ASCII `str.isalpha` on one character. -/
def isAlphaChar (c : Char) : Bool :=
  (65 ≤ c.toNat && c.toNat ≤ 90) || (97 ≤ c.toNat && c.toNat ≤ 122)

def skipWs (l : List Char) : List Char := l.dropWhile pyIsSpace

/-- `str.strip`: drop leading and trailing whitespace. -/
def stripList (l : List Char) : List Char :=
  ((l.dropWhile pyIsSpace).reverse.dropWhile pyIsSpace).reverse

def pyStrip (s : String) : String := String.mk (stripList s.data)

/-- Whitespace-run collapse, the regex substitution `\s+` → `" "`.
The flag records whether the previous character was part of a
whitespace run (only the first character of a run emits a space). -/
def collapseAux : Bool → List Char → List Char
  | _, [] => []
  | afterSpace, c :: rest =>
    if pyIsSpace c then
      if afterSpace then collapseAux true rest
      else ' ' :: collapseAux true rest
    else c :: collapseAux false rest

def collapse (l : List Char) : List Char := collapseAux false l

/-- Characters kept by the substitution `ALNUM_SPACE_RE.sub('', s)`
on an already lowercased string: the class `[a-z0-9 ]`. -/
def keepAlnumSpace (c : Char) : Bool :=
  (97 ≤ c.toNat && c.toNat ≤ 122) || (48 ≤ c.toNat && c.toNat ≤ 57) ||
  c.toNat = 32

/-- Core of `normalize_address_basic` on the character list. -/
def normalizeL (l : List Char) : List Char :=
  stripList (collapse ((stripList (l.map pyToLowerChar)).filter keepAlnumSpace))

/-- `normalize_address_basic` from `sheet_automation.py`:
lowercase, strip, keep only `[a-z0-9 ]`, collapse whitespace runs to a
single space, strip again; empty input short-circuits to `""`. -/
def normalize_address_basic (addr : String) : String :=
  if addr = "" then "" else String.mk (normalizeL addr.data)

/-- Decimal value of a digit string. -/
def digitsVal (l : List Char) : Nat :=
  l.foldl (fun a c => a * 10 + (c.toNat - 48)) 0

/-- `money_to_int_or_none` from `sheet_automation.py`: strip all
characters outside `[0-9.]`; fail if no digit remains; truncate at the
first dot; `int` of the remaining digit string (which fails exactly
when that string is empty). -/
def money_to_int_or_none (value : String) : Option Int :=
  if value = "" then none
  else
    let s := value.data.filter (fun c => isAsciiDigit c || c = '.')
    if ¬ s.any isAsciiDigit then none
    else
      let intPart := s.takeWhile (fun c => c ≠ '.')
      if intPart = [] then none
      else some ((digitsVal intPart : Nat) : Int)

/-! ## State extraction and zone routing -/

/-- The 21 two-letter state codes of `STATE_RE`, in the program's
alternation order (WEST, CENTRAL, EAST groups). -/
def stateCodes : List String :=
  ["CA", "AZ", "NV", "WA", "OR", "UT", "ID", "CO",
   "TX", "OK", "LA", "MS", "OH", "MI", "MN",
   "FL", "GA", "NC", "VA", "TN", "AL"]

/-- Delimiter class of `STATE_RE`, the lookbehind/lookahead class
`[\s,\.]` (44 is `,`, 46 is `.`). -/
def isDelim (c : Char) : Bool := pyIsSpace c || c.toNat = 44 || c.toNat = 46

/-- Case-insensitive equality of two characters (ASCII). -/
def ciEq (c d : Char) : Bool := lowerCode c = lowerCode d

/-- Try to match one of the 21 state codes at the current position:
the next two characters must equal a code up to case and the character
after them (if any) must be a delimiter.  Returns the uppercase code,
which is `m.group(1).upper()` for an ASCII match. -/
def codeAt : List Char → Option String
  | c1 :: c2 :: rest =>
    match stateCodes.find? (fun code =>
        match code.data with
        | [k1, k2] => ciEq c1 k1 && ciEq c2 k2
        | _ => false) with
    | some code =>
      match rest with
      | [] => some code
      | d :: _ => if isDelim d then some code else none
    | none => none
  | _ => none

/-- Leftmost search of `STATE_RE`: try every position whose preceding
character is the start of the string or a delimiter. -/
def scanState : Bool → List Char → Option String
  | prevOk, [] =>
    if prevOk then codeAt [] else none
  | prevOk, c :: rest =>
    match (if prevOk then codeAt (c :: rest) else none) with
    | some code => some code
    | none => scanState (isDelim c) rest

/-- `extract_state` from `sheet_automation.py`: first `STATE_RE` match
in the address, uppercased; `None` when there is no match. -/
def extract_state (address : String) : Option String :=
  scanState true address.data

def WEST : List String := ["CA", "AZ", "NV", "WA", "OR", "UT", "ID", "CO"]
def CENTRAL : List String := ["TX", "OK", "LA", "MS", "OH", "MI", "MN"]
def EAST : List String := ["FL", "GA", "NC", "VA", "TN", "AL"]

/-- Case-insensitive string equality, modelling `s.upper() == code`
(and `s.lower() == lit`) for ASCII strings. -/
def streqCI (a b : String) : Bool := a.data.map lowerCode == b.data.map lowerCode

/-- `zone_for_state` from `sheet_automation.py`: empty/missing state
maps to `""`; otherwise membership of `state.upper()` in the three
zone sets. -/
def zone_for_state (state : String) : String :=
  if state = "" then ""
  else if WEST.any (fun code => streqCI state code) then "WEST"
  else if CENTRAL.any (fun code => streqCI state code) then "CENTRAL"
  else if EAST.any (fun code => streqCI state code) then "EAST"
  else ""

/-! ## Subject parsing -/

/-- Case-insensitive literal matcher: consume `pat` from the front of
`l` (up to ASCII case) and return the rest. -/
def litCI : List Char → List Char → Option (List Char)
  | l, [] => some l
  | [], _ :: _ => none
  | c :: l, p :: ps => if ciEq c p then litCI l ps else none

/-- `\s+` followed by a non-whitespace literal: require at least one
whitespace character, then skip the whole run. -/
def ws1 : List Char → Option (List Char)
  | [] => none
  | c :: l => if pyIsSpace c then some (skipWs l) else none

/-- Lazy group `(.*?)` before the first position where `p` holds:
returns the shortest prefix whose remainder satisfies `p`.  The group
is matched by `.` so it cannot cross a newline. -/
def lazyGroup (p : List Char → Bool) : List Char → Option (List Char)
  | [] => if p [] then some [] else none
  | c :: rest =>
    if p (c :: rest) then some []
    else if c = '\n' then none
    else (lazyGroup p rest).map (fun g => c :: g)

/-- Tail of `SUBJ_REMOVED_RE` after the group:
`\s*has\s+been\s+removed` (no anchor at the end). -/
def removedTail (l : List Char) : Bool :=
  (((((litCI (skipWs l) "has".data).bind ws1).bind
      (fun t => litCI t "been".data)).bind ws1).bind
      (fun t => litCI t "removed".data)).isSome

/-- `SUBJ_REMOVED_RE.match`: `^\s*Property\s+Removed:\s*(.*?)\s*has\s+been\s+removed`,
returning the raw group characters. -/
def matchRemovedSubj (s : List Char) : Option (List Char) :=
  (((litCI (skipWs s) "property".data).bind ws1).bind
      (fun t => litCI t "removed:".data)).bind
    (fun r => lazyGroup removedTail (skipWs r))

def isWordChar (c : Char) : Bool := isAlphaChar c || isAsciiDigit c || c = '_'

/-- `.*$` (no DOTALL, no MULTILINE): the rest contains no newline, or
its only newline is its final character. -/
def dollarOk (l : List Char) : Bool :=
  ¬ l.contains '\n' || (l.getLast? = some '\n' && ¬ l.dropLast.contains '\n')

/-- Tail of `SUBJ_UPDATE_SOLD_3RD_RE` after the group:
`\s*-\s*Sold\s+To\s+3rd\s+Party\b.*$`. -/
def sold3rdTail (l : List Char) : Bool :=
  match (litCI (skipWs l) "-".data).bind
      (fun t => ((((((litCI (skipWs t) "sold".data).bind ws1).bind
        (fun u => litCI u "to".data)).bind ws1).bind
        (fun u => litCI u "3rd".data)).bind ws1).bind
        (fun u => litCI u "party".data)) with
  | none => false
  | some rest =>
    (match rest with
     | [] => true
     | d :: _ => ¬ isWordChar d) && dollarOk rest

/-- Tail of `SUBJ_UPDATE_SOLD_BENEF_RE` after the group:
`\s*-\s*Sold\s+To\s+Beneficiary\b.*$`. -/
def benefTail (l : List Char) : Bool :=
  match (litCI (skipWs l) "-".data).bind
      (fun t => ((((litCI (skipWs t) "sold".data).bind ws1).bind
        (fun u => litCI u "to".data)).bind ws1).bind
        (fun u => litCI u "beneficiary".data)) with
  | none => false
  | some rest =>
    (match rest with
     | [] => true
     | d :: _ => ¬ isWordChar d) && dollarOk rest

/-- Tail of `SUBJ_UPDATE_ANY_RE` after the group:
`(?:\s*-\s*.*)?\s*$`.  The optional part matches when a dash follows
(after whitespace) and everything after it has newlines only inside
leading/trailing whitespace; the empty alternative matches when the
whole rest is whitespace. -/
def updateAnyTail (l : List Char) : Bool :=
  (match litCI (skipWs l) "-".data with
   | some t => ¬ (stripList t).contains '\n'
   | none => false) ||
  l.all pyIsSpace

/-- Shared front of the three `Transaction Update` patterns:
`^\s*Transaction\s+Update:\s*(.*?)` with the given tail pattern. -/
def matchUpdateSubj (tail : List Char → Bool) (s : List Char) : Option (List Char) :=
  (((litCI (skipWs s) "transaction".data).bind ws1).bind
      (fun t => litCI t "update:".data)).bind
    (fun r => lazyGroup tail (skipWs r))

/-- Helper for `wsWords`: `acc` holds the reversed current word. -/
def wsWordsAux : List Char → List Char → List (List Char)
  | acc, [] => if acc = [] then [] else [acc.reverse]
  | acc, c :: rest =>
    if pyIsSpace c then
      if acc = [] then wsWordsAux [] rest
      else acc.reverse :: wsWordsAux [] rest
    else wsWordsAux (c :: acc) rest

/-- Words of a string: maximal runs of non-whitespace, `str.split()`. -/
def wsWords (l : List Char) : List (List Char) := wsWordsAux [] l

/-- `" ".join(text.split())`: whitespace-normalize. -/
def wsJoin (l : List Char) : String :=
  String.intercalate " " ((wsWords l).map String.mk)

structure ParsedSubject where
  typ : String
  address : String
  state : String
deriving DecidableEq

/-- Build the result dictionary of `parse_subject` from a raw regex
group: address is the whitespace-normalized group, state is
`extract_state(address) or ""`. -/
def mkParsed (typ : String) (g : List Char) : ParsedSubject :=
  let address := wsJoin g
  ⟨typ, address, (extract_state address).getD ""⟩

/-- `parse_subject` from `sheet_automation.py`: strip the subject and
try the four patterns in priority order. -/
def parse_subject (subject : String) : Option ParsedSubject :=
  let s := stripList subject.data
  match matchRemovedSubj s with
  | some g => some (mkParsed "Removed" g)
  | none =>
  match matchUpdateSubj sold3rdTail s with
  | some g => some (mkParsed "Sold To 3rd Party" g)
  | none =>
  match matchUpdateSubj benefTail s with
  | some g => some (mkParsed "Removed" g)
  | none =>
  match matchUpdateSubj updateAnyTail s with
  | some g => some (mkParsed "Removed" g)
  | none => none

/-! ## Dates

`strptime(s, "%b %d, %Y")` is embedded as `parseBDY`: an abbreviated
month name (case-insensitive), at least one whitespace character, a
one- or two-digit day in 1..31 (leading zero allowed, `"00"` and
`"0"` rejected), a literal comma, at least one whitespace character,
exactly four digits of year, end of string.  `datetime`'s constructor
additionally rejects day numbers past the month length and year 0;
`parseSheetDateRD` adds those checks and converts the result to a civil
day number. -/

def months : List (String × Nat) :=
  [("jan", 1), ("feb", 2), ("mar", 3), ("apr", 4), ("may", 5), ("jun", 6),
   ("jul", 7), ("aug", 8), ("sep", 9), ("oct", 10), ("nov", 11), ("dec", 12)]

def monthNum : List Char → Option (Nat × List Char)
  | c1 :: c2 :: c3 :: rest =>
    match months.find? (fun p =>
        p.1.data.map lowerCode == [lowerCode c1, lowerCode c2, lowerCode c3]) with
    | some p => some (p.2, rest)
    | none => none
  | _ => none

/-- `%d`: a maximal digit run of length 1 or 2 whose value is 1..31
(the alternation `3[01]|[12]\d|0[1-9]|[1-9]` followed by a non-digit). -/
def parseDay (l : List Char) : Option (Nat × List Char) :=
  let ds := l.takeWhile isAsciiDigit
  let rest := l.dropWhile isAsciiDigit
  match ds with
  | [c] => if 49 ≤ c.toNat ∧ c.toNat ≤ 57 then some (digitsVal ds, rest) else none
  | [_, _] =>
    let v := digitsVal ds
    if 1 ≤ v ∧ v ≤ 31 then some (v, rest) else none
  | _ => none

/-- `%Y`: exactly four digits. -/
def parseYear (l : List Char) : Option (Nat × List Char) :=
  match l with
  | c1 :: c2 :: c3 :: c4 :: rest =>
    if isAsciiDigit c1 && isAsciiDigit c2 && isAsciiDigit c3 && isAsciiDigit c4 then
      some (digitsVal [c1, c2, c3, c4], rest)
    else none
  | _ => none

/-- Full match of `"%b %d, %Y"`; returns `(year, month, day)`. -/
def parseBDY (s : String) : Option (Nat × Nat × Nat) :=
  (monthNum s.data).bind fun md =>
  (ws1 md.2).bind fun l2 =>
  (parseDay l2).bind fun dd =>
  (match dd.2 with | ',' :: l4 => some l4 | _ => none).bind fun l4 =>
  (ws1 l4).bind fun l5 =>
  (parseYear l5).bind fun yy =>
  if yy.2 = [] then some (yy.1, md.1, dd.1) else none

def isLeap (y : Nat) : Bool := y % 4 = 0 && (y % 100 ≠ 0 || y % 400 = 0)

def daysInMonth (y m : Nat) : Nat :=
  if m = 2 then (if isLeap y then 29 else 28)
  else if m = 4 ∨ m = 6 ∨ m = 9 ∨ m = 11 then 30
  else 31

/-- Civil day number of a Gregorian date (days from a fixed epoch,
Hinnant's `days_from_civil` with the year shifted by +400 so all
intermediate values are natural numbers).  Consecutive calendar days
map to consecutive numbers, so `date` equality and `timedelta`
arithmetic become integer arithmetic on this value. -/
def toRD (y m d : Nat) : Int :=
  let ys := if m ≤ 2 then y + 399 else y + 400
  let era := ys / 400
  let yoe := ys % 400
  let mp := (m + 9) % 12
  let doy := (153 * mp + 2) / 5 + (d - 1)
  let doe := yoe * 365 + yoe / 4 - yoe / 100 + doy
  ((era * 146097 + doe : Nat) : Int)

/-- `strptime(s, "%b %d, %Y").date()` including `datetime`'s range
validation, as a civil day number. -/
def parseSheetDateRD (s : String) : Option Int :=
  (parseBDY s).bind fun ymd =>
    if 1 ≤ ymd.1 ∧ 1 ≤ ymd.2.2 ∧ ymd.2.2 ≤ daysInMonth ymd.1 ymd.2.1
    then some (toRD ymd.1 ymd.2.1 ymd.2.2) else none

/-- `strip_weekday_prefix` from `scrape_row_with_driver` in `main.py`:
if the text contains a comma and the (stripped) token before the first
comma is alphabetic, drop that token and the comma and strip the rest. -/
def strip_weekday_prefix (dateText : String) : String :=
  if dateText = "" then ""
  else
    let s := stripList dateText.data
    if s.contains ',' then
      let first := stripList (s.takeWhile (fun c => c ≠ ','))
      if first ≠ [] ∧ first.all isAlphaChar
      then String.mk (stripList (s.dropWhile (fun c => c ≠ ',')).tail)
      else String.mk s
    else String.mk s

/-- `_parse_auction_date_to_date` from `main.py`: strip, drop the
token before the first comma only when it is alphabetic AND longer
than three characters, then `strptime "%b %d, %Y"`. -/
def _parse_auction_date_to_date (s : String) : Option Int :=
  if s = "" then none
  else
    let txt := stripList s.data
    let txt2 :=
      if txt.contains ',' then
        let first := stripList (txt.takeWhile (fun c => c ≠ ','))
        if first ≠ [] ∧ first.all isAlphaChar ∧ 3 < first.length
        then stripList (txt.dropWhile (fun c => c ≠ ',')).tail
        else txt
      else txt
    parseSheetDateRD (String.mk txt2)

/-- The `Completed` derivation in `scrape_row_with_driver`
(`main.py`): base rule `(est market value non-blank) AND (opening bid
non-blank and not "tbd" after strip/lower)`, then the hard-close
override `Auction Start Date == today - 1 day` forces completed.
`today` is the civil day number of `date.today()`. -/
def computeCompleted (openingBid estMV auctionStartDate : String) (today : Int) : Bool :=
  let obStr := pyStrip openingBid
  let emvHas := pyStrip estMV ≠ ""
  let obReal := obStr ≠ "" ∧ ¬ streqCI obStr "tbd"
  let base := emvHas && obReal
  let auctStr := pyStrip auctionStartDate
  if auctStr ≠ "" then
    match parseSheetDateRD auctStr with
    | some rd => if rd = today - 1 then true else base
    | none => base
  else base

/-- `_is_candidate_row_full` from `main.py` on the three fields it
reads (`Completed`, `Added Date`, `Auction Start Date`). -/
def _is_candidate_row_full (completed addedDate auctionStartDate : String)
    (today : Int) : Bool :=
  if pyStrip completed ≠ "0" then false
  else
    let addedRaw := pyStrip addedDate
    if addedRaw ≠ "" ∧ parseSheetDateRD addedRaw = some today then false
    else
      let auctRaw := pyStrip auctionStartDate
      if auctRaw = "" then true
      else
        match _parse_auction_date_to_date auctRaw with
        | none => true
        | some rd => (rd - today).natAbs ≤ 1

/-! ## The cross-source matcher (`_match_csv_batch_against_chunk`) -/

/-- One row of the chunk-local map: the `A:F` cell values, the raw
address text, and the normalized address. -/
structure SheetRow where
  af : List String
  addrTxt : String
  sheetNorm : String
deriving DecidableEq

/-- One CSV change record (columns `address`, `type`, `final_bid`). -/
structure CsvRow where
  address : String
  typ : String
  finalBid : String
deriving DecidableEq

/-- `set.add`: a Python set of row numbers, modelled as a
duplicate-free list (membership is all that is ever used of it). -/
def setInsert (n : Nat) (l : List Nat) : List Nat :=
  if n ∈ l then l else n :: l

/-- Mutable state threaded through the matcher: the chunk-local map in
insertion order, the queued deletions, the staged archive rows. -/
structure MatchState where
  chunkMap : List (Nat × SheetRow)
  toDelete : List Nat
  buffer : List (List String)
deriving DecidableEq

/-- `needle` occurs in `hay` (Python `in` on strings). -/
def hasSub : List Char → List Char → Bool
  | n, [] => n.isEmpty
  | n, c :: rest => n.isPrefixOf (c :: rest) || hasSub n rest

/-- Case-insensitive containment, `a.upper() in b.upper()` for ASCII. -/
def hasSubCI (a b : String) : Bool :=
  hasSub (a.data.map (fun c => Char.ofNat (lowerCode c)))
         (b.data.map (fun c => Char.ofNat (lowerCode c)))

/-- The per-entry condition of the matcher loop: the state guard
(`state.upper() in addr_txt.upper()` unless state is empty) and the
normalized-substring test (`csv_norm and sheet_norm and csv_norm in
sheet_norm`). -/
def matchCond (state csvNorm : String) (e : Nat × SheetRow) : Bool :=
  (state == "" || hasSubCI state e.2.addrTxt) &&
  (csvNorm != "" && e.2.sheetNorm != "" && hasSub csvNorm.data e.2.sheetNorm.data)

def padTo6 (af : List String) : List String :=
  af ++ List.replicate (6 - af.length) ""

/-- `str(n)` for the appended surplus (always nonnegative there). -/
def intToDec (i : Int) : String :=
  if i < 0 then "-" ++ Nat.repr i.natAbs else Nat.repr i.toNat

/-- Processing of a single CSV row in
`_match_csv_batch_against_chunk`: route by state to the zone, skip on
empty normalized address, find the first matching sheet row, delete it
from the chunk map, queue its row number for deletion, and for
`Sold To 3rd Party` stage an archive row when both money fields parse
and the surplus is at least 100. -/
def matchCsvRow (zone : String) (r : CsvRow) (st : MatchState) : MatchState :=
  let address := pyStrip r.address
  let typ := pyStrip r.typ
  let finalBid := pyStrip r.finalBid
  let state := (extract_state address).getD ""
  if zone_for_state state ≠ zone then st
  else
    let csvNorm := normalize_address_basic address
    if csvNorm = "" then st
    else
      match st.chunkMap.find? (matchCond state csvNorm) with
      | none => st
      | some (rnum, sr) =>
        let st' : MatchState :=
          { st with chunkMap := st.chunkMap.filter (fun e => e.1 ≠ rnum) }
        -- `if not matched_rownum: continue` (row numbers are ≥ 2 in practice)
        if rnum = 0 then st'
        else
          let st1 : MatchState := { st' with toDelete := setInsert rnum st'.toDelete }
          if streqCI typ "sold to 3rd party" then
            let af := padTo6 sr.af
            let openingBid := af.getD 3 ""
            match money_to_int_or_none finalBid, money_to_int_or_none openingBid with
            | some fb, some ob =>
              let surplus := fb - ob
              if surplus < 100 then st1
              else
                { st1 with buffer := st1.buffer ++
                    [[af.getD 0 "", af.getD 1 "", af.getD 2 "", openingBid,
                      af.getD 4 "", af.getD 5 "", finalBid, intToDec surplus]] }
            | _, _ => st1
          else st1

/-- One CSV batch streamed against one chunk. -/
def matchCsvBatch (zone : String) (batch : List CsvRow) (st : MatchState) : MatchState :=
  batch.foldl (fun s r => matchCsvRow zone r s) st

/-! ## Deletion ordering

Both `upload_csv_to_sheet` and `clean_source_sheets` issue the queued
row deletions as `sorted(to_delete, reverse=True)`: the queued row
numbers in descending order. -/

def deletionSequence (toDelete : List Nat) : List Nat :=
  (toDelete.insertionSort (· ≤ ·)).reverse

/-- No two adjacent whitespace characters (used to state the shape of
normalized addresses). -/
def noTwoWs (a b : Char) : Prop := ¬(pyIsSpace a = true ∧ pyIsSpace b = true)

/-- The archive rows staged by one matched CSV record: one row when
the record is `Sold To 3rd Party`, both money fields parse and the
surplus is at least 100; none otherwise (mirrors the staging branch of
`_match_csv_batch_against_chunk`). -/
def stagedRows (typ finalBid : String) (sr : SheetRow) : List (List String) :=
  let af := padTo6 sr.af
  let openingBid := af.getD 3 ""
  if streqCI typ "sold to 3rd party" then
    match money_to_int_or_none finalBid, money_to_int_or_none openingBid with
    | some fb, some ob =>
      if fb - ob < 100 then []
      else [[af.getD 0 "", af.getD 1 "", af.getD 2 "", openingBid,
             af.getD 4 "", af.getD 5 "", finalBid, intToDec (fb - ob)]]
    | _, _ => []
  else []

/-! ## Claims -/

/-- Sanity anchors for the civil day number: consecutive calendar days
across month, year and (non-)leap-year boundaries differ by one. -/
theorem toRD_consecutive_days :
    toRD 2026 10 12 = toRD 2026 10 11 + 1 ∧
    toRD 2025 11 1 = toRD 2025 10 31 + 1 ∧
    toRD 2026 1 1 = toRD 2025 12 31 + 1 ∧
    toRD 2024 2 29 = toRD 2024 2 28 + 1 ∧
    toRD 2024 3 1 = toRD 2024 2 29 + 1 ∧
    toRD 2025 3 1 = toRD 2025 2 28 + 1 ∧
    toRD 2000 3 1 = toRD 2000 2 29 + 1 ∧
    toRD 1900 3 1 = toRD 1900 2 28 + 1 := by
  refine ⟨by decide, by decide, by decide, by decide, by decide, by decide,
    by decide, by decide⟩

/-- Sanity anchors for the `"%b %d, %Y"` parser: the guaranteed sheet
format parses, full month names and missing commas do not, and
`datetime`'s day-of-month validation is applied. -/
theorem parseBDY_anchors :
    parseBDY "Oct 27, 2025" = some (2025, 10, 27) ∧
    parseBDY "Nov 8, 2025" = some (2025, 11, 8) ∧
    parseBDY "June 27, 2025" = none ∧
    parseBDY "Oct 27 2025" = none ∧
    parseSheetDateRD "Feb 30, 2025" = none ∧
    parseSheetDateRD "Feb 29, 2024" = some (toRD 2024 2 29) := by
  refine ⟨by decide, by decide, by decide, by decide, by decide, by decide⟩

/-- C7: `money_to_int_or_none` strips all characters other than digits
and dots; when no digit remains it returns `none`; otherwise it
truncates (does not round) at the first dot and returns the value of
the integer part; `moneyToInteger("$426,100.00") = 426100`,
`moneyToInteger("TBD") = none`, `moneyToInteger("") = none`. -/
theorem c7_money_parsing :
    (∀ v : String, v.data.filter isAsciiDigit = [] → money_to_int_or_none v = none) ∧
    (∀ v : String, v ≠ "" →
      ((v.data.filter (fun c => isAsciiDigit c || c = '.')).takeWhile
          (fun c => c ≠ '.')).any isAsciiDigit →
      money_to_int_or_none v =
        some ((digitsVal ((v.data.filter (fun c => isAsciiDigit c || c = '.')).takeWhile
          (fun c => c ≠ '.')) : Nat) : Int)) ∧
    money_to_int_or_none "$426,100.00" = some 426100 ∧
    money_to_int_or_none "TBD" = none ∧
    money_to_int_or_none "" = none ∧
    money_to_int_or_none "$0.99" = some 0 := by
  refine ⟨?_, ?_, by decide, by decide, by decide, by decide⟩
  · intro v h
    by_cases hv : v = ""
    · simp [money_to_int_or_none, hv]
    · have hno : ¬ (v.data.filter (fun c => isAsciiDigit c || c = '.')).any
          isAsciiDigit = true := by
        intro hany
        rcases List.any_eq_true.mp hany with ⟨c, hc, hcd⟩
        have hcv : c ∈ v.data := (List.mem_filter.mp hc).1
        have hmem : c ∈ v.data.filter isAsciiDigit := List.mem_filter.mpr ⟨hcv, hcd⟩
        rw [h] at hmem
        exact (List.not_mem_nil c) hmem
      unfold money_to_int_or_none
      rw [if_neg hv, if_pos hno]
  · intro v hv hany
    rcases List.any_eq_true.mp hany with ⟨c, hc, hcd⟩
    have hcs : c ∈ (v.data.filter (fun c => isAsciiDigit c || c = '.')) :=
      (List.takeWhile_subset _) hc
    have h1 : (v.data.filter (fun c => isAsciiDigit c || c = '.')).any
        isAsciiDigit = true := List.any_eq_true.mpr ⟨c, hcs, hcd⟩
    have h2 : (v.data.filter (fun c => isAsciiDigit c || c = '.')).takeWhile
        (fun c => c ≠ '.') ≠ [] := by
      intro h
      rw [h] at hc
      exact (List.not_mem_nil c) hc
    unfold money_to_int_or_none
    rw [if_neg hv, if_neg (not_not_intro h1), if_neg h2]

/-- C7 witness: the universally quantified parts of `c7_money_parsing`
applied at concrete inputs. -/
theorem c7_money_parsing_witness :
    money_to_int_or_none "no digits here" = none ∧
    money_to_int_or_none "12.9" = some 12 := by
  constructor
  · exact c7_money_parsing.1 "no digits here" (by decide)
  · have h := c7_money_parsing.2.1 "12.9" (by decide) (by decide)
    rw [h]; decide

/-- C6: queued row deletions are issued in strictly descending
row-number order: `deletionSequence` (the bottom-up order used both by
`upload_csv_to_sheet` and by `clean_source_sheets`) is a `>`-chain,
contains exactly the queued rows, and maps `{5, 10, 3}` to
`[10, 5, 3]`. -/
theorem c6_deletion_descending :
    (∀ l : List Nat, l.Nodup → List.Chain' (· > ·) (deletionSequence l)) ∧
    (∀ (l : List Nat) (r : Nat), r ∈ deletionSequence l ↔ r ∈ l) ∧
    deletionSequence [5, 10, 3] = [10, 5, 3] := by
  refine ⟨?_, ?_, by decide⟩
  · intro l hl
    have hperm : List.Perm (l.insertionSort (· ≤ ·)) l := List.perm_insertionSort _ l
    have hs : List.Sorted (· ≤ ·) (l.insertionSort (· ≤ ·)) :=
      List.sorted_insertionSort _ l
    have hn : (l.insertionSort (· ≤ ·)).Nodup := hperm.nodup_iff.mpr hl
    have hlt : List.Pairwise (· < ·) (l.insertionSort (· ≤ ·)) :=
      (hs.and hn).imp (fun h => lt_of_le_of_ne h.1 h.2)
    have hp : List.Pairwise (fun a b : Nat => a > b) ((l.insertionSort (· ≤ ·)).reverse) :=
      List.pairwise_reverse.mpr (hlt.imp (fun h => h))
    exact hp.chain'
  · intro l r
    unfold deletionSequence
    rw [List.mem_reverse]
    exact (List.perm_insertionSort _ l).mem_iff

/-- C6 witness: `c6_deletion_descending` applied to the queue
`{5, 10, 3}`. -/
theorem c6_deletion_descending_witness :
    List.Chain' (· > ·) (deletionSequence [5, 10, 3]) :=
  c6_deletion_descending.1 [5, 10, 3] (by decide)

/-- C8 counterexample: the claim says the auction-date parser used by
the candidate filter drops any alphabetic token before the first comma
("Mon, Oct 27, 2025" reduced to "Oct 27, 2025" before parsing); in
the code `_parse_auction_date_to_date` only drops tokens longer than
three characters, so on "Mon, Oct 27, 2025" it does not behave like
parsing the stripped text. -/
theorem c8_weekday_counterexample :
    _parse_auction_date_to_date "Mon, Oct 27, 2025" ≠
      parseSheetDateRD "Oct 27, 2025" := by decide

/-- C8 (amended): the scrape-time helper ` strip_weekday_prefix` drops
any alphabetic token before the first comma (both "Monday" and
"Mon"), while `_parse_auction_date_to_date` drops the token only when
it is alphabetic and longer than three characters; so it parses
"Monday, Oct 27, 2025" but returns no date for "Mon, Oct 27, 2025". -/
theorem c8_weekday_stripping :
    (∀ s : String, s ≠ "" →
      (stripList s.data).contains ',' = true →
      stripList ((stripList s.data).takeWhile (fun c => c ≠ ',')) ≠ [] →
      (stripList ((stripList s.data).takeWhile (fun c => c ≠ ','))).all isAlphaChar →
      strip_weekday_prefix s =
        String.mk (stripList ((stripList s.data).dropWhile (fun c => c ≠ ',')).tail)) ∧
    (∀ s : String, s ≠ "" →
      (stripList s.data).contains ',' = true →
      stripList ((stripList s.data).takeWhile (fun c => c ≠ ',')) ≠ [] →
      (stripList ((stripList s.data).takeWhile (fun c => c ≠ ','))).all isAlphaChar →
      3 < (stripList ((stripList s.data).takeWhile (fun c => c ≠ ','))).length →
      _parse_auction_date_to_date s =
        parseSheetDateRD
          (String.mk (stripList ((stripList s.data).dropWhile (fun c => c ≠ ',')).tail))) ∧
    (∀ s : String, s ≠ "" →
      (stripList s.data).contains ',' = true →
      (stripList ((stripList s.data).takeWhile (fun c => c ≠ ','))).length ≤ 3 →
      _parse_auction_date_to_date s = parseSheetDateRD (String.mk (stripList s.data))) ∧
    strip_weekday_prefix "Monday, Oct 27, 2025" = "Oct 27, 2025" ∧
    strip_weekday_prefix "Mon, Oct 27, 2025" = "Oct 27, 2025" ∧
    _parse_auction_date_to_date "Monday, Oct 27, 2025" = some (toRD 2025 10 27) ∧
    _parse_auction_date_to_date "Mon, Oct 27, 2025" = none ∧
    _parse_auction_date_to_date "Oct 27, 2025" = some (toRD 2025 10 27) := by
  refine ⟨?_, ?_, ?_, by decide, by decide, by decide, by decide, by decide⟩
  · intro s hs hcomma hne hall
    unfold strip_weekday_prefix
    rw [if_neg hs]
    dsimp only
    rw [if_pos hcomma, if_pos ⟨hne, hall⟩]
  · intro s hs hcomma hne hall hlen
    unfold _parse_auction_date_to_date
    rw [if_neg hs]
    dsimp only
    rw [if_pos hcomma, if_pos ⟨hne, hall, hlen⟩]
  · intro s hs hcomma hlen
    unfold _parse_auction_date_to_date
    rw [if_neg hs]
    dsimp only
    rw [if_pos hcomma, if_neg (fun h => absurd h.2.2 (Nat.not_lt.mpr hlen))]

/-- C8 witness: `c8_weekday_stripping` applied at the inputs
"Monday, Oct 27, 2025" (dropped by both helpers) and
"Mon, Oct 27, 2025" (dropped only by the scrape-time helper). -/
theorem c8_weekday_stripping_witness :
    strip_weekday_prefix "Monday, Oct 27, 2025" = "Oct 27, 2025" ∧
    strip_weekday_prefix "Mon, Oct 27, 2025" = "Oct 27, 2025" ∧
    _parse_auction_date_to_date "Monday, Oct 27, 2025" = parseSheetDateRD "Oct 27, 2025" ∧
    _parse_auction_date_to_date "Mon, Oct 27, 2025" =
      parseSheetDateRD "Mon, Oct 27, 2025" := by
  refine ⟨?_, ?_, ?_, ?_⟩
  · have h := c8_weekday_stripping.1 "Monday, Oct 27, 2025" (by decide) (by decide)
      (by decide) (by decide)
    rw [h]; decide
  · have h := c8_weekday_stripping.1 "Mon, Oct 27, 2025" (by decide) (by decide)
      (by decide) (by decide)
    rw [h]; decide
  · have h := c8_weekday_stripping.2.1 "Monday, Oct 27, 2025" (by decide) (by decide)
      (by decide) (by decide) (by decide)
    rw [h]; decide
  · have h := c8_weekday_stripping.2.2.1 "Mon, Oct 27, 2025" (by decide) (by decide)
      (by decide)
    rw [h]; decide

/-- Empty text never parses as a sheet date. -/
theorem parseSheetDateRD_empty : parseSheetDateRD "" = none := rfl

/-- C4: `Completed` is true iff (est. market value non-blank AND
opening bid non-blank and not "tbd") OR the auction start date parses
to exactly `today - 1` (the hard-close override, which takes
precedence over the first condition); a record with both bid fields
blank and auction date = yesterday is completed, the same record with
auction date = today is not. -/
theorem c4_completed_rule :
    (∀ (ob emv auct : String) (today : Int),
      computeCompleted ob emv auct today = true ↔
        ((pyStrip emv ≠ "" ∧ pyStrip ob ≠ "" ∧ ¬ streqCI (pyStrip ob) "tbd" = true) ∨
         parseSheetDateRD (pyStrip auct) = some (today - 1))) ∧
    computeCompleted "" "" "Oct 11, 2026" (toRD 2026 10 12) = true ∧
    computeCompleted "" "" "Oct 12, 2026" (toRD 2026 10 12) = false ∧
    computeCompleted "$200,000" "$250,000" "Oct 12, 2026" (toRD 2026 10 12) = true := by
  refine ⟨?_, by decide, by decide, by decide⟩
  intro ob emv auct today
  unfold computeCompleted
  dsimp only
  by_cases ha : pyStrip auct = ""
  · rw [if_neg (by simpa using ha), ha, parseSheetDateRD_empty]
    simp
  · rw [if_pos (by simpa using ha)]
    cases hp : parseSheetDateRD (pyStrip auct) with
    | none => simp [hp]
    | some rd =>
      by_cases hrd : rd = today - 1 <;> simp [hrd]

/-- C4 witness: `c4_completed_rule`'s equivalence applied to a record
with both bid fields blank and auction start date equal to yesterday. -/
theorem c4_completed_rule_witness :
    computeCompleted "" "" "Oct 11, 2026" (toRD 2026 10 12) = true :=
  ((c4_completed_rule.1 "" "" "Oct 11, 2026" (toRD 2026 10 12)).mpr
    (Or.inr (by decide)))

/-- C5: a row is a candidate for update iff `Completed` is "0" (after
strip) AND its added date does not parse to today AND (the auction
start date is blank OR unparseable OR within one day of today);
a record added today is excluded, the same record added yesterday is
included. -/
theorem c5_candidate_rule :
    (∀ (completed added auct : String) (today : Int),
      _is_candidate_row_full completed added auct today = true ↔
        (pyStrip completed = "0" ∧
         ¬ parseSheetDateRD (pyStrip added) = some today ∧
         (pyStrip auct = "" ∨
          _parse_auction_date_to_date (pyStrip auct) = none ∨
          ∃ rd, _parse_auction_date_to_date (pyStrip auct) = some rd ∧
            (rd - today).natAbs ≤ 1))) ∧
    _is_candidate_row_full "0" "Oct 12, 2026" "" (toRD 2026 10 12) = false ∧
    _is_candidate_row_full "0" "Oct 11, 2026" "" (toRD 2026 10 12) = true := by
  refine ⟨?_, by decide, by decide⟩
  intro completed added auct today
  unfold _is_candidate_row_full
  dsimp only
  by_cases hc : pyStrip completed = "0"
  · rw [if_neg (by simpa using hc)]
    by_cases hadd : parseSheetDateRD (pyStrip added) = some today
    · have hne : pyStrip added ≠ "" := by
        intro h
        rw [h, parseSheetDateRD_empty] at hadd
        exact Option.noConfusion hadd
      rw [if_pos ⟨hne, hadd⟩]
      simp [hc, hadd]
    · rw [if_neg (fun h => hadd h.2)]
      by_cases hau : pyStrip auct = ""
      · simp [hau, hc, hadd]
      · rw [if_neg hau]
        cases hp : _parse_auction_date_to_date (pyStrip auct) with
        | none => simp [hc, hadd, hau, hp]
        | some rd =>
          simp only [hc, true_and, hadd, not_false_iff, hau, false_or, hp,
            Option.some_inj, decide_eq_true_eq]
          constructor
          · intro h
            exact Or.inr ⟨rd, rfl, h⟩
          · rintro (h | ⟨rd2, rfl, h⟩)
            · exact Option.noConfusion h
            · exact h
  · rw [if_pos (by simpa using hc)]
    simp [hc]

/-- C5 witness: `c5_candidate_rule`'s equivalence applied to a
completed="0" row added yesterday with a blank auction date. -/
theorem c5_candidate_rule_witness :
    _is_candidate_row_full "0" "Oct 11, 2026" "" (toRD 2026 10 12) = true :=
  ((c5_candidate_rule.1 "0" "Oct 11, 2026" "" (toRD 2026 10 12)).mpr
    ⟨by decide, by decide, Or.inl (by decide)⟩)

/-- C3: `parse_subject` tries the four subject patterns in priority
order: `Property Removed:` → Removed, `Transaction Update: … - Sold To
3rd Party` → Sold To 3rd Party, `… - Sold To Beneficiary` → Removed,
any other `Transaction Update:` → Removed, anything else → none; every
successful parse carries one of the two types and the state extracted
from the parsed address; the claim's example subject yields type
"Sold To 3rd Party", address "123 Main St, Austin, TX", state "TX". -/
theorem c3_subject_grammar :
    (∀ (s : String) (r : ParsedSubject), parse_subject s = some r →
      (r.typ = "Removed" ∨ r.typ = "Sold To 3rd Party") ∧
      r.state = (extract_state r.address).getD "") ∧
    parse_subject "Property Removed: 456 Oak Ave, Tampa, FL has been removed from the auction." =
      some ⟨"Removed", "456 Oak Ave, Tampa, FL", "FL"⟩ ∧
    parse_subject "Transaction Update: 123 Main St, Austin, TX - Sold To 3rd Party." =
      some ⟨"Sold To 3rd Party", "123 Main St, Austin, TX", "TX"⟩ ∧
    parse_subject "Transaction Update: 789 Pine Rd, Denver, CO - Sold To Beneficiary" =
      some ⟨"Removed", "789 Pine Rd, Denver, CO", "CO"⟩ ∧
    parse_subject "Transaction Update: 10 Elm St, Dallas, TX" =
      some ⟨"Removed", "10 Elm St, Dallas, TX", "TX"⟩ ∧
    parse_subject "Hello world" = none := by
  refine ⟨?_, by decide, by decide, by decide, by decide, by decide⟩
  intro s r h
  simp only [parse_subject] at h
  cases h1 : matchRemovedSubj (stripList s.data) with
  | some g =>
    simp only [h1, Option.some_inj] at h
    subst h
    exact ⟨Or.inl rfl, rfl⟩
  | none =>
  rw [h1] at h
  cases h2 : matchUpdateSubj sold3rdTail (stripList s.data) with
  | some g =>
    simp only [h2, Option.some_inj] at h
    subst h
    exact ⟨Or.inr rfl, rfl⟩
  | none =>
  rw [h2] at h
  cases h3 : matchUpdateSubj benefTail (stripList s.data) with
  | some g =>
    simp only [h3, Option.some_inj] at h
    subst h
    exact ⟨Or.inl rfl, rfl⟩
  | none =>
  rw [h3] at h
  cases h4 : matchUpdateSubj updateAnyTail (stripList s.data) with
  | some g =>
    simp only [h4, Option.some_inj] at h
    subst h
    exact ⟨Or.inl rfl, rfl⟩
  | none =>
    rw [h4] at h
    exact Option.noConfusion h

/-- C3 witness: `c3_subject_grammar`'s universal part applied to the
claim's example subject. -/
theorem c3_subject_grammar_witness :
    ("Sold To 3rd Party" = "Removed" ∨ "Sold To 3rd Party" = "Sold To 3rd Party") ∧
    ("TX" : String) = (extract_state "123 Main St, Austin, TX").getD "" := by
  have h := c3_subject_grammar.1
    "Transaction Update: 123 Main St, Austin, TX - Sold To 3rd Party."
    ⟨"Sold To 3rd Party", "123 Main St, Austin, TX", "TX"⟩ (by decide)
  exact ⟨Or.inr rfl, by simpa using h.2⟩

/-- `isDelim` only depends on the case-folding key of the character
(`STATE_RE`'s delimiter class contains no letters). -/
theorem isDelim_congr {c d : Char} (h : lowerCode c = lowerCode d) :
    isDelim c = isDelim d := by
  unfold lowerCode at h
  unfold isDelim pyIsSpace
  apply Bool.eq_iff_iff.mpr
  simp only [Bool.or_eq_true, decide_eq_true_eq]
  split_ifs at h <;> omega

/-- `codeAt` only depends on the case-folding keys of the characters. -/
theorem codeAt_congr : ∀ la lb : List Char,
    la.map lowerCode = lb.map lowerCode → codeAt la = codeAt lb := by
  intro la lb h
  match la, lb with
  | [], [] => rfl
  | [], _ :: _ => exact absurd h (by simp)
  | _ :: _, [] => exact absurd h (by simp)
  | [c], [d] => rfl
  | [c], _ :: _ :: _ => exact absurd h (by simp)
  | _ :: _ :: _, [d] => exact absurd h (by simp)
  | c1 :: c2 :: rest, d1 :: d2 :: rest2 =>
    simp only [List.map_cons, List.cons.injEq] at h
    obtain ⟨h1, h2, h3⟩ := h
    simp only [codeAt]
    have hpred : (fun code : String =>
        match code.data with
        | [k1, k2] => ciEq c1 k1 && ciEq c2 k2
        | _ => false) =
        (fun code : String =>
        match code.data with
        | [k1, k2] => ciEq d1 k1 && ciEq d2 k2
        | _ => false) := by
      funext code
      cases hcd : code.data with
      | nil => rfl
      | cons k1 ks =>
        cases ks with
        | nil => rfl
        | cons k2 ks2 =>
          cases ks2 with
          | nil =>
            show (ciEq c1 k1 && ciEq c2 k2) = (ciEq d1 k1 && ciEq d2 k2)
            unfold ciEq
            rw [h1, h2]
          | cons _ _ => rfl
    rw [hpred]
    cases hfind : stateCodes.find? (fun code : String =>
        match code.data with
        | [k1, k2] => ciEq d1 k1 && ciEq d2 k2
        | _ => false) with
    | none => rfl
    | some p =>
      cases rest with
      | nil =>
        cases rest2 with
        | nil => rfl
        | cons _ _ => exact absurd h3 (by simp)
      | cons e es =>
        cases rest2 with
        | nil => exact absurd h3 (by simp)
        | cons f fs =>
          simp only [List.map_cons, List.cons.injEq] at h3
          dsimp only
          rw [isDelim_congr h3.1]

/-- `scanState` only depends on the case-folding keys. -/
theorem scanState_congr : ∀ (la lb : List Char) (prevOk : Bool),
    la.map lowerCode = lb.map lowerCode → scanState prevOk la = scanState prevOk lb := by
  intro la
  induction la with
  | nil =>
    intro lb prevOk h
    cases lb with
    | nil => rfl
    | cons _ _ => exact absurd h (by simp)
  | cons c cs ih =>
    intro lb prevOk h
    cases lb with
    | nil => exact absurd h (by simp)
    | cons d ds =>
      simp only [List.map_cons, List.cons.injEq] at h
      have hca : codeAt (c :: cs) = codeAt (d :: ds) :=
        codeAt_congr _ _ (by simp [h.1, h.2])
      simp only [scanState]
      rw [hca, isDelim_congr h.1, ih ds (isDelim d) h.2]

/-- A successful `codeAt` returns one of the 21 state codes. -/
theorem codeAt_mem : ∀ (l : List Char) (code : String),
    codeAt l = some code → code ∈ stateCodes := by
  intro l code h
  match l with
  | [] => exact Option.noConfusion h
  | [c] => exact Option.noConfusion h
  | c1 :: c2 :: rest =>
    simp only [codeAt] at h
    cases hfind : stateCodes.find? (fun code : String =>
        match code.data with
        | [k1, k2] => ciEq c1 k1 && ciEq c2 k2
        | _ => false) with
    | none =>
      rw [hfind] at h
      exact Option.noConfusion h
    | some p =>
      rw [hfind] at h
      have hp : p ∈ stateCodes := List.mem_of_find?_eq_some hfind
      have hpc : p = code := by
        cases rest with
        | nil => simpa using h
        | cons d ds =>
          by_cases hd : isDelim d = true
          · simpa [hd] using h
          · simp [hd] at h
      exact hpc ▸ hp

/-- A successful `scanState` returns one of the 21 state codes. -/
theorem scanState_mem : ∀ (l : List Char) (prevOk : Bool) (code : String),
    scanState prevOk l = some code → code ∈ stateCodes := by
  intro l
  induction l with
  | nil =>
    intro prevOk code h
    cases prevOk <;> simp [scanState, codeAt] at h
  | cons c cs ih =>
    intro prevOk code h
    simp only [scanState] at h
    cases hca : (if prevOk then codeAt (c :: cs) else none) with
    | some p =>
      rw [hca] at h
      have hpc : p = code := by simpa using h
      cases prevOk with
      | true => exact codeAt_mem _ _ (by rw [← hpc]; simpa using hca)
      | false => simp at hca
    | none =>
      rw [hca] at h
      exact ih _ _ h

/-- C10: `extract_state` is case-insensitive (it depends only on the
case-folding key of the address) and returns the uppercase form of the
first delimited two-letter state-code occurrence, so an ordinary word
like "La" in "123 La Salle St" or the word "Or" is returned as a
state; the returned value is always one of the 21 uppercase codes and
is what `zone_for_state` routes on (e.g. "LA" → CENTRAL, "OR" →
WEST). -/
theorem c10_state_extraction :
    (∀ a b : String, a.data.map lowerCode = b.data.map lowerCode →
      extract_state a = extract_state b) ∧
    (∀ a code : String, extract_state a = some code → code ∈ stateCodes) ∧
    extract_state "123 La Salle St" = some "LA" ∧
    extract_state "123 la salle st" = some "LA" ∧
    extract_state "Or" = some "OR" ∧
    zone_for_state "LA" = "CENTRAL" ∧
    zone_for_state "OR" = "WEST" := by
  refine ⟨?_, ?_, by decide, by decide, by decide, by decide, by decide⟩
  · intro a b h
    exact scanState_congr a.data b.data true h
  · intro a code h
    exact scanState_mem a.data true code h

/-- C10 witness: `c10_state_extraction` applied to the address
"123 La Salle St" and its uppercased variant, and to "Or". -/
theorem c10_state_extraction_witness :
    extract_state "123 LA SALLE ST" = extract_state "123 La Salle St" ∧
    ("OR" : String) ∈ stateCodes := by
  constructor
  · exact c10_state_extraction.1 "123 LA SALLE ST" "123 La Salle St" (by decide)
  · exact c10_state_extraction.2.1 "Or" "OR" (by decide)

/-! ### Idempotence of `normalize_address_basic` (C9) -/

theorem char_eq_of_toNat {c d : Char} (h : c.toNat = d.toNat) : c = d :=
  Char.ext (UInt32.ext h)

/-- Kept characters are already lowercase. -/
theorem keep_toLower_fixed {c : Char} (h : keepAlnumSpace c = true) :
    pyToLowerChar c = c := by
  simp only [keepAlnumSpace, Bool.or_eq_true, Bool.and_eq_true,
    decide_eq_true_eq] at h
  unfold pyToLowerChar
  rw [if_neg]
  omega

/-- The only whitespace character in the kept class is the space. -/
theorem keep_space_eq {c : Char} (hk : keepAlnumSpace c = true)
    (hw : pyIsSpace c = true) : c = ' ' := by
  simp only [keepAlnumSpace, pyIsSpace, Bool.or_eq_true, Bool.and_eq_true,
    decide_eq_true_eq] at hk hw
  have h32 : c.toNat = 32 := by omega
  exact char_eq_of_toNat (by rw [h32]; decide)

theorem dropWhile_head_not {p : Char → Bool} : ∀ (l : List Char) (c : Char),
    (l.dropWhile p).head? = some c → p c = false := by
  intro l
  induction l with
  | nil => intro c h; simp at h
  | cons a as ih =>
    intro c h
    by_cases ha : p a = true
    · rw [List.dropWhile_cons_of_pos ha] at h
      exact ih c h
    · rw [List.dropWhile_cons_of_neg ha] at h
      simp only [List.head?_cons, Option.some_inj] at h
      subst h
      exact Bool.eq_false_iff.mpr ha

theorem dropWhile_eq_self {p : Char → Bool} {l : List Char}
    (h : ∀ c, l.head? = some c → p c = false) : l.dropWhile p = l := by
  cases l with
  | nil => rfl
  | cons a as =>
    exact List.dropWhile_cons_of_neg (by simp [h a rfl])

theorem stripList_isPre (l : List Char) : stripList l <+: l.dropWhile pyIsSpace := by
  unfold stripList
  have h := List.dropWhile_suffix (l := (l.dropWhile pyIsSpace).reverse) pyIsSpace
  have h2 := List.reverse_prefix.mpr h
  simpa using h2

theorem stripList_head_not {l : List Char} {c : Char}
    (h : (stripList l).head? = some c) : pyIsSpace c = false := by
  obtain ⟨t, ht⟩ := stripList_isPre l
  apply dropWhile_head_not l c
  rw [← ht]
  cases hs : stripList l with
  | nil => rw [hs] at h; simp at h
  | cons a as =>
    rw [hs] at h
    simp only [List.head?_cons, Option.some_inj] at h
    simp [h]

theorem stripList_last_not {l : List Char} {c : Char}
    (h : (stripList l).getLast? = some c) : pyIsSpace c = false := by
  unfold stripList at h
  rw [List.getLast?_eq_head?_reverse, List.reverse_reverse] at h
  exact dropWhile_head_not _ c h

theorem stripList_eq_self {l : List Char}
    (h1 : ∀ c, l.head? = some c → pyIsSpace c = false)
    (h2 : ∀ c, l.getLast? = some c → pyIsSpace c = false) : stripList l = l := by
  unfold stripList
  rw [dropWhile_eq_self h1, dropWhile_eq_self (by
    intro c hc
    rw [List.head?_reverse] at hc
    exact h2 c hc), List.reverse_reverse]

theorem stripList_subset {l : List Char} {c : Char} (h : c ∈ stripList l) : c ∈ l :=
  (List.dropWhile_sublist pyIsSpace).subset ((stripList_isPre l).subset h)

theorem stripList_chain {l : List Char} (h : List.Chain' noTwoWs l) :
    List.Chain' noTwoWs (stripList l) :=
  h.infix ((stripList_isPre l).isInfix.trans (List.dropWhile_suffix pyIsSpace).isInfix)

theorem collapseAux_nil : ∀ b : Bool, collapseAux b [] = [] := by
  intro b
  cases b <;> rfl

theorem collapseAux_ws_true {a : Char} {as : List Char} (hw : pyIsSpace a = true) :
    collapseAux true (a :: as) = collapseAux true as := by
  simp only [collapseAux]
  simp [hw]

theorem collapseAux_ws_false {a : Char} {as : List Char} (hw : pyIsSpace a = true) :
    collapseAux false (a :: as) = ' ' :: collapseAux true as := by
  simp only [collapseAux]
  simp [hw]

theorem collapseAux_nws {a : Char} {as : List Char} (b : Bool)
    (hw : ¬ pyIsSpace a = true) :
    collapseAux b (a :: as) = a :: collapseAux false as := by
  simp only [collapseAux]
  simp [hw]

theorem collapseAux_mem : ∀ (l : List Char) (b : Bool) (c : Char),
    c ∈ collapseAux b l → c ∈ l ∨ c = ' ' := by
  intro l
  induction l with
  | nil =>
    intro b c h
    rw [collapseAux_nil] at h
    simp at h
  | cons a as ih =>
    intro b c h
    by_cases hw : pyIsSpace a = true
    · cases b with
      | true =>
        rw [collapseAux_ws_true hw] at h
        rcases ih true c h with h' | h'
        · exact Or.inl (List.mem_cons_of_mem a h')
        · exact Or.inr h'
      | false =>
        rw [collapseAux_ws_false hw] at h
        simp only [List.mem_cons] at h
        rcases h with h' | h'
        · exact Or.inr h'
        · rcases ih true c h' with h'' | h''
          · exact Or.inl (List.mem_cons_of_mem a h'')
          · exact Or.inr h''
    · rw [collapseAux_nws b hw] at h
      simp only [List.mem_cons] at h
      rcases h with h' | h'
      · exact Or.inl (h' ▸ List.mem_cons_self a as)
      · rcases ih false c h' with h'' | h''
        · exact Or.inl (List.mem_cons_of_mem a h'')
        · exact Or.inr h''

theorem collapseAux_true_head : ∀ (l : List Char) (c : Char),
    (collapseAux true l).head? = some c → pyIsSpace c = false := by
  intro l
  induction l with
  | nil =>
    intro c h
    rw [collapseAux_nil] at h
    simp at h
  | cons a as ih =>
    intro c h
    by_cases hw : pyIsSpace a = true
    · rw [collapseAux_ws_true hw] at h
      exact ih c h
    · rw [collapseAux_nws true hw] at h
      simp only [List.head?_cons, Option.some_inj] at h
      subst h
      exact Bool.eq_false_iff.mpr hw

theorem collapseAux_chain : ∀ (l : List Char) (b : Bool),
    List.Chain' noTwoWs (collapseAux b l) := by
  intro l
  induction l with
  | nil =>
    intro b
    rw [collapseAux_nil]
    simp
  | cons a as ih =>
    intro b
    by_cases hw : pyIsSpace a = true
    · cases b with
      | true =>
        rw [collapseAux_ws_true hw]
        exact ih true
      | false =>
        rw [collapseAux_ws_false hw]
        refine List.chain'_cons'.mpr ⟨?_, ih true⟩
        intro d hd
        intro hcon
        rw [collapseAux_true_head as d hd] at hcon
        exact Bool.false_ne_true hcon.2
    · rw [collapseAux_nws b hw]
      refine List.chain'_cons'.mpr ⟨?_, ih false⟩
      intro d _
      intro hcon
      exact hw hcon.1

theorem collapseAux_fixed : ∀ l : List Char,
    (∀ c ∈ l, keepAlnumSpace c = true) → List.Chain' noTwoWs l →
    (collapseAux false l = l ∧
     ((∀ c, l.head? = some c → pyIsSpace c = false) → collapseAux true l = l)) := by
  intro l
  induction l with
  | nil => exact fun _ _ => ⟨rfl, fun _ => rfl⟩
  | cons a as ih =>
    intro hkeep hchain
    have hka : keepAlnumSpace a = true := hkeep a (List.mem_cons_self a as)
    have hkas : ∀ c ∈ as, keepAlnumSpace c = true :=
      fun c hc => hkeep c (List.mem_cons_of_mem a hc)
    obtain ⟨hhead, htail⟩ := List.chain'_cons'.mp hchain
    by_cases hw : pyIsSpace a = true
    · have ha : a = ' ' := keep_space_eq hka hw
      have htrue : collapseAux true as = as := by
        refine (ih hkas htail).2 ?_
        intro c hc
        by_contra hcc
        exact (hhead c hc) ⟨hw, Bool.not_eq_false _ |>.mp hcc⟩
      constructor
      · rw [collapseAux_ws_false hw, htrue, ha]
      · intro hh
        exact absurd (hh a rfl) (by simp [hw])
    · have hfalse : collapseAux false as = as := (ih hkas htail).1
      constructor
      · rw [collapseAux_nws false hw, hfalse]
      · intro _
        rw [collapseAux_nws true hw, hfalse]

theorem normalizeL_keep {l : List Char} {c : Char} (h : c ∈ normalizeL l) :
    keepAlnumSpace c = true := by
  unfold normalizeL at h
  have h1 := stripList_subset h
  rcases collapseAux_mem _ false c h1 with h2 | h2
  · exact (List.mem_filter.mp h2).2
  · subst h2; decide

theorem normalizeL_fixed {L : List Char}
    (hkeep : ∀ c ∈ L, keepAlnumSpace c = true)
    (hchain : List.Chain' noTwoWs L)
    (hhead : ∀ c, L.head? = some c → pyIsSpace c = false)
    (hlast : ∀ c, L.getLast? = some c → pyIsSpace c = false) :
    normalizeL L = L := by
  unfold normalizeL
  rw [show L.map pyToLowerChar = L from by
      rw [show L.map pyToLowerChar = L.map id from
        List.map_congr_left (fun c hc => keep_toLower_fixed (hkeep c hc)), List.map_id]]
  rw [stripList_eq_self hhead hlast]
  rw [List.filter_eq_self.mpr hkeep]
  show stripList (collapseAux false L) = L
  rw [(collapseAux_fixed L hkeep hchain).1]
  exact stripList_eq_self hhead hlast

theorem normalizeL_idem (l : List Char) : normalizeL (normalizeL l) = normalizeL l :=
  normalizeL_fixed (fun _ hc => normalizeL_keep hc)
    (stripList_chain (collapseAux_chain _ false))
    (fun _ hc => stripList_head_not hc)
    (fun _ hc => stripList_last_not hc)

/-- C9: `normalize_address_basic` (lowercase, keep only `[a-z0-9 ]`,
collapse whitespace runs, strip) is idempotent, and
`normalize("123 Main St., Apt #4B!") = "123 main st apt 4b"`,
`normalize("") = ""`. -/
theorem c9_normalize_idempotent :
    (∀ x : String,
      normalize_address_basic (normalize_address_basic x) = normalize_address_basic x) ∧
    normalize_address_basic "123 Main St., Apt #4B!" = "123 main st apt 4b" ∧
    normalize_address_basic "" = "" := by
  refine ⟨?_, by decide, by decide⟩
  intro x
  by_cases hx : x = ""
  · rw [hx]
    decide
  · have hx1 : normalize_address_basic x = String.mk (normalizeL x.data) := by
      rw [normalize_address_basic, if_neg hx]
    rw [hx1]
    by_cases hy : String.mk (normalizeL x.data) = ""
    · rw [hy]
      decide
    · rw [normalize_address_basic, if_neg hy]
      show String.mk (normalizeL (normalizeL x.data)) = String.mk (normalizeL x.data)
      rw [normalizeL_idem]

/-! ### The matcher claims (C1, C2) -/

/-- `find?` returns the unique element satisfying the predicate. -/
theorem find?_of_unique {α : Type} {p : α → Bool} {a : α} :
    ∀ l : List α, (∀ e ∈ l, (p e = true ↔ e = a)) → a ∈ l → l.find? p = some a := by
  intro l
  induction l with
  | nil =>
    intro _ h
    simp at h
  | cons x xs ih =>
    intro huniq hmem
    by_cases hx : p x = true
    · have hxa : x = a := (huniq x (List.mem_cons_self x xs)).mp hx
      rw [List.find?_cons_of_pos xs hx, hxa]
    · rw [List.find?_cons_of_neg xs hx]
      rcases List.mem_cons.mp hmem with h | h
      · exact absurd ((huniq x (List.mem_cons_self x xs)).mpr h.symm) hx
      · exact ih (fun e he => huniq e (List.mem_cons_of_mem x he)) h

/-- Characterization of `matchCsvRow` when the record routes to the
zone, normalizes non-trivially, and the chunk-map search finds row
`(rnum, sr)`: that row is removed from the chunk map, its number is
queued for deletion, and the staged archive rows are `stagedRows`. -/
theorem matchCsvRow_found
    (zone : String) (r : CsvRow) (st : MatchState) (rnum : Nat) (sr : SheetRow)
    (hroute : zone_for_state ((extract_state (pyStrip r.address)).getD "") = zone)
    (hnorm : normalize_address_basic (pyStrip r.address) ≠ "")
    (hfind : st.chunkMap.find?
      (matchCond ((extract_state (pyStrip r.address)).getD "")
        (normalize_address_basic (pyStrip r.address))) = some (rnum, sr))
    (hrn : rnum ≠ 0) :
    matchCsvRow zone r st =
      { chunkMap := st.chunkMap.filter (fun e => e.1 ≠ rnum),
        toDelete := setInsert rnum st.toDelete,
        buffer := st.buffer ++ stagedRows (pyStrip r.typ) (pyStrip r.finalBid) sr } := by
  unfold matchCsvRow
  dsimp only
  rw [if_neg (fun hcon => hcon hroute), if_neg hnorm, hfind]
  dsimp only
  rw [if_neg hrn]
  unfold stagedRows
  dsimp only
  by_cases hty : streqCI (pyStrip r.typ) "sold to 3rd party" = true
  · rw [if_pos hty, if_pos hty]
    cases hfb : money_to_int_or_none (pyStrip r.finalBid) with
    | none =>
      dsimp only
      simp
    | some fb =>
      cases hob : money_to_int_or_none ((padTo6 sr.af).getD 3 "") with
      | none =>
        dsimp only
        simp
      | some ob =>
        dsimp only
        by_cases hlt : fb - ob < 100
        · rw [if_pos hlt, if_pos hlt]
          simp
        · rw [if_neg hlt, if_neg hlt]
  · rw [if_neg hty, if_neg hty]
    simp

/-- When the chunk-map search finds nothing (or the record does not
route to the zone, or normalizes to the empty string), `matchCsvRow`
leaves the state unchanged. -/
theorem matchCsvRow_nomatch
    (zone : String) (r : CsvRow) (st : MatchState)
    (hfind : st.chunkMap.find?
      (matchCond ((extract_state (pyStrip r.address)).getD "")
        (normalize_address_basic (pyStrip r.address))) = none) :
    matchCsvRow zone r st = st := by
  unfold matchCsvRow
  dsimp only
  by_cases hroute : zone_for_state ((extract_state (pyStrip r.address)).getD "") ≠ zone
  · rw [if_pos hroute]
  · rw [if_neg hroute]
    by_cases hnorm : normalize_address_basic (pyStrip r.address) = ""
    · rw [if_pos hnorm]
    · rw [if_neg hnorm, hfind]

/-- C1: when exactly one row of the chunk-local map matches a change
record (state guard plus normalized-substring containment), processing
that record queues exactly that row number for deletion and removes
the row from the chunk map immediately; processing the same record a
second time in the same chunk (as with two change records of
identical normalized address) finds no match and leaves the state
unchanged, so of the two records exactly one is matched. -/
theorem c1_single_consumption
    (zone : String) (r : CsvRow) (st : MatchState) (rnum : Nat) (sr : SheetRow)
    (hroute : zone_for_state ((extract_state (pyStrip r.address)).getD "") = zone)
    (hnorm : normalize_address_basic (pyStrip r.address) ≠ "")
    (hmem : (rnum, sr) ∈ st.chunkMap)
    (huniq : ∀ e ∈ st.chunkMap,
      (matchCond ((extract_state (pyStrip r.address)).getD "")
        (normalize_address_basic (pyStrip r.address)) e = true ↔ e = (rnum, sr)))
    (hrn : rnum ≠ 0) :
    (matchCsvRow zone r st).toDelete = setInsert rnum st.toDelete ∧
    (matchCsvRow zone r st).chunkMap = st.chunkMap.filter (fun e => e.1 ≠ rnum) ∧
    (∀ e ∈ (matchCsvRow zone r st).chunkMap, e.1 ≠ rnum) ∧
    matchCsvRow zone r (matchCsvRow zone r st) = matchCsvRow zone r st ∧
    matchCsvBatch zone [r, r] st = matchCsvRow zone r st := by
  have hfind := find?_of_unique st.chunkMap huniq hmem
  have h1 := matchCsvRow_found zone r st rnum sr hroute hnorm hfind hrn
  have hmap : (matchCsvRow zone r st).chunkMap =
      st.chunkMap.filter (fun e => e.1 ≠ rnum) := by rw [h1]
  have hnone : (matchCsvRow zone r st).chunkMap.find?
      (matchCond ((extract_state (pyStrip r.address)).getD "")
        (normalize_address_basic (pyStrip r.address))) = none := by
    rw [hmap]
    apply List.find?_eq_none.mpr
    intro e he hp
    rcases List.mem_filter.mp he with ⟨hel, hkey⟩
    have he2 : e = (rnum, sr) := (huniq e hel).mp hp
    rw [he2] at hkey
    simp at hkey
  have hsecond := matchCsvRow_nomatch zone r (matchCsvRow zone r st) hnone
  refine ⟨by rw [h1], hmap, ?_, hsecond, ?_⟩
  · intro e he
    rw [hmap] at he
    rcases List.mem_filter.mp he with ⟨_, hkey⟩
    exact of_decide_eq_true hkey
  · show List.foldl (fun s r => matchCsvRow zone r s) st [r, r] = matchCsvRow zone r st
    simp only [List.foldl_cons, List.foldl_nil]
    exact hsecond

/-- C1 witness: `c1_single_consumption` applied to a chunk with one
matching sheet row (row 2) and a change record processed twice. -/
theorem c1_single_consumption_witness :
    (matchCsvRow "CENTRAL" ⟨"123 Main St, Austin, TX", "Removed", ""⟩
      ⟨[(2, ⟨["http://x", "123 Main St, Austin, TX", "TX", "$200,000", "$250,000",
           "Nov 8, 2025"], "123 Main St, Austin, TX", "123 main st austin tx"⟩)],
        [], []⟩).toDelete = setInsert 2 [] ∧
    (matchCsvRow "CENTRAL" ⟨"123 Main St, Austin, TX", "Removed", ""⟩
      ⟨[(2, ⟨["http://x", "123 Main St, Austin, TX", "TX", "$200,000", "$250,000",
           "Nov 8, 2025"], "123 Main St, Austin, TX", "123 main st austin tx"⟩)],
        [], []⟩).chunkMap =
      [(2, (⟨["http://x", "123 Main St, Austin, TX", "TX", "$200,000", "$250,000",
           "Nov 8, 2025"], "123 Main St, Austin, TX", "123 main st austin tx"⟩ : SheetRow))].filter
        (fun e => e.1 ≠ 2) ∧
    (∀ e ∈ (matchCsvRow "CENTRAL" ⟨"123 Main St, Austin, TX", "Removed", ""⟩
      ⟨[(2, ⟨["http://x", "123 Main St, Austin, TX", "TX", "$200,000", "$250,000",
           "Nov 8, 2025"], "123 Main St, Austin, TX", "123 main st austin tx"⟩)],
        [], []⟩).chunkMap, e.1 ≠ 2) ∧
    matchCsvRow "CENTRAL" ⟨"123 Main St, Austin, TX", "Removed", ""⟩
      (matchCsvRow "CENTRAL" ⟨"123 Main St, Austin, TX", "Removed", ""⟩
        ⟨[(2, ⟨["http://x", "123 Main St, Austin, TX", "TX", "$200,000", "$250,000",
             "Nov 8, 2025"], "123 Main St, Austin, TX", "123 main st austin tx"⟩)],
          [], []⟩) =
      matchCsvRow "CENTRAL" ⟨"123 Main St, Austin, TX", "Removed", ""⟩
        ⟨[(2, ⟨["http://x", "123 Main St, Austin, TX", "TX", "$200,000", "$250,000",
             "Nov 8, 2025"], "123 Main St, Austin, TX", "123 main st austin tx"⟩)],
          [], []⟩ ∧
    matchCsvBatch "CENTRAL"
      [⟨"123 Main St, Austin, TX", "Removed", ""⟩, ⟨"123 Main St, Austin, TX", "Removed", ""⟩]
      ⟨[(2, ⟨["http://x", "123 Main St, Austin, TX", "TX", "$200,000", "$250,000",
           "Nov 8, 2025"], "123 Main St, Austin, TX", "123 main st austin tx"⟩)],
        [], []⟩ =
      matchCsvRow "CENTRAL" ⟨"123 Main St, Austin, TX", "Removed", ""⟩
        ⟨[(2, ⟨["http://x", "123 Main St, Austin, TX", "TX", "$200,000", "$250,000",
             "Nov 8, 2025"], "123 Main St, Austin, TX", "123 main st austin tx"⟩)],
          [], []⟩ :=
  c1_single_consumption "CENTRAL" ⟨"123 Main St, Austin, TX", "Removed", ""⟩
    ⟨[(2, ⟨["http://x", "123 Main St, Austin, TX", "TX", "$200,000", "$250,000",
         "Nov 8, 2025"], "123 Main St, Austin, TX", "123 main st austin tx"⟩)],
      [], []⟩ 2
    ⟨["http://x", "123 Main St, Austin, TX", "TX", "$200,000", "$250,000",
       "Nov 8, 2025"], "123 Main St, Austin, TX", "123 main st austin tx"⟩
    (by decide) (by decide) (by decide) (by decide) (by decide)

/-- C2: for a matched change record the source row number is always
queued for deletion (Removed or Sold To 3rd Party alike), and the
staged archive rows are exactly `stagedRows`: nonempty iff the record
is of type Sold To 3rd Party, both `finalBid` and the sheet's opening
bid parse as money, and the surplus `finalBid - openingBid` is at
least 100; `$200,100`, `$200,000` and `$200,099` parse to 200100,
200000 and 200099 (surplus 100 archived, 99 not). -/
theorem c2_surplus_archival
    (zone : String) (r : CsvRow) (st : MatchState) (rnum : Nat) (sr : SheetRow)
    (hroute : zone_for_state ((extract_state (pyStrip r.address)).getD "") = zone)
    (hnorm : normalize_address_basic (pyStrip r.address) ≠ "")
    (hfind : st.chunkMap.find?
      (matchCond ((extract_state (pyStrip r.address)).getD "")
        (normalize_address_basic (pyStrip r.address))) = some (rnum, sr))
    (hrn : rnum ≠ 0) :
    ((matchCsvRow zone r st).toDelete = setInsert rnum st.toDelete ∧
     (matchCsvRow zone r st).buffer =
       st.buffer ++ stagedRows (pyStrip r.typ) (pyStrip r.finalBid) sr) ∧
    (stagedRows (pyStrip r.typ) (pyStrip r.finalBid) sr ≠ [] ↔
      (streqCI (pyStrip r.typ) "sold to 3rd party" = true ∧
       ∃ fb ob : Int, money_to_int_or_none (pyStrip r.finalBid) = some fb ∧
         money_to_int_or_none ((padTo6 sr.af).getD 3 "") = some ob ∧
         100 ≤ fb - ob)) ∧
    money_to_int_or_none "$200,100" = some 200100 ∧
    money_to_int_or_none "$200,000" = some 200000 ∧
    money_to_int_or_none "$200,099" = some 200099 := by
  have h1 := matchCsvRow_found zone r st rnum sr hroute hnorm hfind hrn
  refine ⟨⟨by rw [h1], by rw [h1]⟩, ?_, by decide, by decide, by decide⟩
  unfold stagedRows
  dsimp only
  by_cases hty : streqCI (pyStrip r.typ) "sold to 3rd party" = true
  · rw [if_pos hty]
    cases hfb : money_to_int_or_none (pyStrip r.finalBid) with
    | none => simp [hfb]
    | some fb =>
      cases hob : money_to_int_or_none ((padTo6 sr.af).getD 3 "") with
      | none => simp [hob]
      | some ob =>
        dsimp only
        by_cases hlt : fb - ob < 100
        · rw [if_pos hlt]
          simp only [ne_eq, not_true_eq_false, false_iff, not_and]
          intro _
          rintro ⟨fb2, ob2, hfb2, hob2, hge⟩
          cases Option.some_inj.mp hfb2
          cases Option.some_inj.mp hob2
          omega
        · rw [if_neg hlt]
          constructor
          · intro _
            exact ⟨hty, fb, ob, rfl, rfl, by omega⟩
          · intro _
            simp
  · rw [if_neg hty]
    simp [hty]

/-- C2 witness: `c2_surplus_archival` applied to a matched
Sold To 3rd Party record with opening bid `$200,000`, once with final
bid `$200,100` (surplus 100: archived and deleted) and once with
`$200,099` (surplus 99: deleted but not archived). -/
theorem c2_surplus_archival_witness :
    (matchCsvRow "CENTRAL" ⟨"123 Main St, Austin, TX", "Sold To 3rd Party", "$200,100"⟩
      ⟨[(2, ⟨["http://x", "123 Main St, Austin, TX", "TX", "$200,000", "$250,000",
           "Nov 8, 2025"], "123 Main St, Austin, TX", "123 main st austin tx"⟩)],
        [], []⟩).toDelete = [2] ∧
    (matchCsvRow "CENTRAL" ⟨"123 Main St, Austin, TX", "Sold To 3rd Party", "$200,100"⟩
      ⟨[(2, ⟨["http://x", "123 Main St, Austin, TX", "TX", "$200,000", "$250,000",
           "Nov 8, 2025"], "123 Main St, Austin, TX", "123 main st austin tx"⟩)],
        [], []⟩).buffer =
      [["http://x", "123 Main St, Austin, TX", "TX", "$200,000", "$250,000",
        "Nov 8, 2025", "$200,100", "100"]] ∧
    (matchCsvRow "CENTRAL" ⟨"123 Main St, Austin, TX", "Sold To 3rd Party", "$200,099"⟩
      ⟨[(2, ⟨["http://x", "123 Main St, Austin, TX", "TX", "$200,000", "$250,000",
           "Nov 8, 2025"], "123 Main St, Austin, TX", "123 main st austin tx"⟩)],
        [], []⟩).toDelete = [2] ∧
    (matchCsvRow "CENTRAL" ⟨"123 Main St, Austin, TX", "Sold To 3rd Party", "$200,099"⟩
      ⟨[(2, ⟨["http://x", "123 Main St, Austin, TX", "TX", "$200,000", "$250,000",
           "Nov 8, 2025"], "123 Main St, Austin, TX", "123 main st austin tx"⟩)],
        [], []⟩).buffer = [] := by
  have h1 := c2_surplus_archival "CENTRAL"
    ⟨"123 Main St, Austin, TX", "Sold To 3rd Party", "$200,100"⟩
    ⟨[(2, ⟨["http://x", "123 Main St, Austin, TX", "TX", "$200,000", "$250,000",
         "Nov 8, 2025"], "123 Main St, Austin, TX", "123 main st austin tx"⟩)],
      [], []⟩ 2
    ⟨["http://x", "123 Main St, Austin, TX", "TX", "$200,000", "$250,000",
       "Nov 8, 2025"], "123 Main St, Austin, TX", "123 main st austin tx"⟩
    (by decide) (by decide) (by decide) (by decide)
  have h2 := c2_surplus_archival "CENTRAL"
    ⟨"123 Main St, Austin, TX", "Sold To 3rd Party", "$200,099"⟩
    ⟨[(2, ⟨["http://x", "123 Main St, Austin, TX", "TX", "$200,000", "$250,000",
         "Nov 8, 2025"], "123 Main St, Austin, TX", "123 main st austin tx"⟩)],
      [], []⟩ 2
    ⟨["http://x", "123 Main St, Austin, TX", "TX", "$200,000", "$250,000",
       "Nov 8, 2025"], "123 Main St, Austin, TX", "123 main st austin tx"⟩
    (by decide) (by decide) (by decide) (by decide)
  refine ⟨?_, ?_, ?_, ?_⟩
  · rw [h1.1.1]; decide
  · rw [h1.1.2]; decide
  · rw [h2.1.1]; decide
  · rw [h2.1.2]; decide

end AuctionTracker
